import Mathlib

/-!
Verification development for the CloudAWSync file-synchronization agent.

The Go sources are shallowly embedded: Go strings become `List Char`,
Go `time.Time` values become `Int` (nanoseconds since the epoch, so that
`t1.After t2` is `t1 > t2`), Go maps become association lists updated in
place, and channels of bounded capacity become lists together with a
capacity bound.  Every definition is translated from the corresponding
function of the repository (path/filepath library functions used by the
code are translated from the Go standard library, Unix build).
-/

set_option maxRecDepth 10000

/-- Go strings are modelled as lists of characters. -/
abbrev Str := List Char

/-- Convenience coercion from Lean string literals to the `Str` model. -/
def str (s : String) : Str := s.data

/-! ### Go `path/filepath` (Unix): Clean, Join, Base, Rel

Translated from Go's `path/filepath/path.go` (Unix build: separator `/`,
no volume names). -/

/-- One step of the backtracking performed by `Clean` when it meets a `..`
element: the buffer index `w` is first decremented, then decremented while
`w > dotdot` and the character at position `w` is not a separator.
`r` is the reverse of `out.take (w+1)`, so its head is the character the
loop inspects. -/
def btLoop (dotdot : Nat) : Str → Nat → Str
  | [], _ => []
  | c :: r, w => if w > dotdot ∧ ¬ c = '/' then btLoop dotdot r (w - 1) else r

/-- The `..`-element backtracking of Go `filepath.Clean`: removes the last
path element of the output buffer `out` (and its preceding separator),
never shrinking below `dotdot`. -/
def backtrack (out : Str) (dotdot : Nat) : Str :=
  (btLoop dotdot out.reverse (out.length - 1)).reverse

/-- The main loop of Go `filepath.Clean` (Unix).  `rooted` records whether
the input began with `/`; `inElem` tells whether we are in the middle of
copying a path element (Go's inner copy loop); `out` is the output buffer,
`dotdot` the index past which `..` may not backtrack. -/
def cleanStep (rooted : Bool) (inElem : Bool) (out : Str) (dotdot : Nat) (l : Str) : Str :=
  match l with
  | [] => out
  | c :: cs =>
    if c = '/' then
      -- empty path element, or end of the element being copied
      cleanStep rooted false out dotdot cs
    else if inElem then
      cleanStep rooted true (out ++ [c]) dotdot cs
    else if c = '.' then
      match cs with
      | [] => out                                   -- trailing "." element
      | c2 :: cs1 =>
        if c2 = '/' then
          -- "." element followed by a separator: both are consumed
          cleanStep rooted false out dotdot cs1
        else if c2 = '.' ∧ (cs1 = [] ∨ cs1.head? = some '/') then
          -- ".." element: backtrack or emit ".."
          if out.length > dotdot then
            cleanStep rooted false (backtrack out dotdot) dotdot cs1
          else if rooted = false then
            cleanStep rooted false
              (((if out.length > 0 then out ++ ['/'] else out) ++ ['.', '.']))
              ((if out.length > 0 then out ++ ['/'] else out) ++ ['.', '.']).length cs1
          else cleanStep rooted false out dotdot cs1
        else
          -- real element that merely starts with ".": copy the first two
          -- characters of the element, then continue copying it
          cleanStep rooted true
            ((if (rooted ∧ ¬ out.length = 1) ∨ (¬ rooted ∧ ¬ out.length = 0)
              then out ++ ['/'] else out) ++ [c, c2]) dotdot cs1
    else
      -- real path element
      cleanStep rooted true
        ((if (rooted ∧ ¬ out.length = 1) ∨ (¬ rooted ∧ ¬ out.length = 0)
          then out ++ ['/'] else out) ++ [c]) dotdot cs
termination_by structural l

/-- Go `filepath.Clean` (Unix). -/
def goClean (path : Str) : Str :=
  if path = [] then ['.']
  else
    let rooted := path.head? = some '/'
    let out :=
      if rooted then cleanStep true false ['/'] 1 path.tail
      else cleanStep false false [] 0 path
    if out = [] then ['.'] else out

/-- Go `filepath.Join` restricted to two elements, as used by the engine
and the S3 provider: skip leading empty elements, join with `/`, `Clean`. -/
def goJoin2 (a b : Str) : Str :=
  if ¬ a = [] then goClean (a ++ '/' :: b)
  else if ¬ b = [] then goClean b
  else []

/-- Go `filepath.Base` (Unix). -/
def goBase (path : Str) : Str :=
  if path = [] then ['.']
  else
    let p1 := (path.reverse.dropWhile (· = '/')).reverse  -- strip trailing separators
    let p2 := (p1.reverse.takeWhile (fun c => ¬ c = '/')).reverse -- after last separator
    if p2 = [] then ['/'] else p2

/-- Split on `/`, keeping empty components (`"a//b"` ↦ `["a","","b"]`). -/
def splitSlash : Str → List Str
  | [] => [[]]
  | c :: cs =>
    if c = '/' then [] :: splitSlash cs
    else
      match splitSlash cs with
      | [] => [[c]]
      | h :: t => (c :: h) :: t

/-- Join components with `/`. -/
def joinSlash : List Str → Str
  | [] => []
  | [x] => x
  | x :: y :: rest => x ++ '/' :: joinSlash (y :: rest)

/-- The path elements scanned by Go `filepath.Rel`'s positional loop on a
cleaned path: `"/"` contributes the single empty element the loop sees. -/
def pathComps (p : Str) : List Str :=
  if p = ['/'] then [[]] else splitSlash p

/-- Drop the common leading components of two component lists. -/
def dropCommon : List Str → List Str → List Str × List Str
  | a :: as', b :: bs' =>
    if a = b then dropCommon as' bs' else (a :: as', b :: bs')
  | as', bs' => (as', bs')

/-- Go `filepath.Rel` (Unix), at the granularity of path elements: `none`
models the error return. -/
def goRel (basepath targpath : Str) : Option Str :=
  let base := goClean basepath
  let targ := goClean targpath
  if targ = base then some ['.']
  else
    let base := if base = ['.'] then [] else base
    if ¬ (base.head? = some '/' ↔ targ.head? = some '/') then none
    else
      let bcomps := if base = [] then [] else pathComps base
      let tcomps := pathComps targ
      let (bRem, tRem) := dropCommon bcomps tcomps
      match bRem with
      | [] => some (joinSlash tRem)
      | b0 :: _ =>
        if b0 = str ".." then none
        else some (joinSlash (List.replicate bRem.length (str "..") ++ tRem))

/-- Model of `Engine.getRelativePath`: `filepath.Rel(rootPath, fullPath)`, falling
back to `filepath.Base(fullPath)` on error. -/
def getRelativePath (fullPath rootPath : Str) : Str :=
  match goRel rootPath fullPath with
  | some rel => rel
  | none => goBase fullPath

example : goClean (str "backup/a.txt") = str "backup/a.txt" := by decide
example : goClean (str "a/../b//c/") = str "b/c" := by decide
example : goClean (str "/../x") = str "/x" := by decide
example : goClean (str "") = str "." := by decide
example : goBase (str "/tmp/src/a.txt") = str "a.txt" := by decide
example : goRel (str "/tmp/src") (str "/tmp/src/d/a.txt") = some (str "d/a.txt") := by decide
example : goRel (str "/a/x") (str "/a/b") = some (str "../b") := by decide
example : goRel (str "/") (str "/a") = some (str "a") := by decide
example : goRel (str "/a") (str "b") = none := by decide
example : getRelativePath (str "/tmp/src/a.txt") (str "/tmp/src") = str "a.txt" := by decide
example : goJoin2 (str "backup") (str "a.txt") = str "backup/a.txt" := by decide

/-! ### Go `path/filepath.Match` (Unix)

Translated from Go's `path/filepath/match.go`.  `matchChunkF` carries a
fuel argument bounding the recursion depth; every step strictly consumes
the chunk, so fuel `chunk.length + 1` (used by the wrapper
`matchChunkCore`) is never exhausted. -/

/-- Result of Go's `matchChunk`: a syntactically bad pattern (`err`), a
well-formed chunk that does not match (`failed`), or a match with the
remaining name (`ok`). -/
inductive MatchRes where
  | err : MatchRes
  | failed : MatchRes
  | ok : Str → MatchRes
deriving DecidableEq

/-- One range of a character class, as consumed by Go's `getEsc` calls in
`matchChunk` (a `lo`, optionally `-` and a `hi`).  Returns `none` for
`ErrBadPattern`, `some (none, rest)` when the closing `]` ends the class,
and `some (some (lo, hi), rest)` for a parsed range. -/
def classStep (first : Bool) (l : Str) : Option (Option (Char × Char) × Str) :=
  match l with
  | [] => none
  | c :: cs =>
    if c = ']' ∧ first = false then some (none, cs)
    else if c = '-' ∨ c = ']' then none
    else if c = '\\' then
      match cs with
      | [] => none
      | d :: ds =>
        match ds with
        | [] => none
        | e :: es =>
          if e = '-' then
            match es with
            | [] => none
            | f :: fs =>
              if f = '-' ∨ f = ']' then none
              else if f = '\\' then
                match fs with
                | [] => none
                | g :: gs => match gs with | [] => none | _ :: _ => some (some (d, g), gs)
              else match fs with | [] => none | _ :: _ => some (some (d, f), fs)
          else some (some (d, d), e :: es)
    else
      match cs with
      | [] => none
      | e :: es =>
        if e = '-' then
          match es with
          | [] => none
          | f :: fs =>
            if f = '-' ∨ f = ']' then none
            else if f = '\\' then
              match fs with
              | [] => none
              | g :: gs => match gs with | [] => none | _ :: _ => some (some (c, g), gs)
            else match fs with | [] => none | _ :: _ => some (some (c, f), fs)
        else some (some (c, c), e :: es)

/-- The range-parsing loop of the `[` case of Go `matchChunk`.  `r` is the
name character being classified, `m` the accumulated match flag.  Fuel is
bounded by the chunk length (each range consumes at least one character).
Returns the match flag and the chunk remaining after the class. -/
def parseRangesF (fuel : Nat) (r : Char) (first m : Bool) (l : Str) : Option (Bool × Str) :=
  match fuel with
  | 0 => none
  | Nat.succ fuel =>
    match classStep first l with
    | none => none
    | some (none, cs) => some (m, cs)
    | some (some (lo, hi), rest) =>
      parseRangesF fuel r false (m || decide (lo ≤ r ∧ r ≤ hi)) rest

/-- Wrapper for `parseRangesF` with always-sufficient fuel. -/
def parseRanges (r : Char) (first m : Bool) (l : Str) : Option (Bool × Str) :=
  parseRangesF (l.length + 1) r first m l

/-- Whether the character class at the head of `rest` is negated (`[^`). -/
def classNeg (rest : Str) : Bool := decide (rest.head? = some '^')

/-- The class body, past a possible `^`. -/
def classChunk (rest : Str) : Str :=
  if rest.head? = some '^' then rest.tail else rest

/-- The name character decoded for a `[` or literal step; Go leaves `r`
as the zero rune when the match has already failed. -/
def classR (failed1 : Bool) (s : Str) : Char :=
  if failed1 then Char.ofNat 0 else s.headD (Char.ofNat 0)

/-- Go `matchChunk`, fuel-indexed (each step consumes chunk characters,
so fuel `chunk.length + 1` is always sufficient).  `failed` records a
match failure that must still scan the rest of the chunk for syntax
errors. -/
def matchChunkF (fuel : Nat) (failed : Bool) (chunk s : Str) : MatchRes :=
  match fuel with
  | 0 => .err
  | Nat.succ fuel =>
    match chunk with
    | [] => if failed then .failed else .ok s
    | c :: rest =>
      if c = '[' then
        match parseRanges (classR (failed || s.isEmpty) s) true false (classChunk rest) with
        | none => .err
        | some (m, ch2) =>
          matchChunkF fuel
            (if m = classNeg rest then true else (failed || s.isEmpty)) ch2
            (if failed || s.isEmpty then s else s.tail)
      else if c = '?' then
        if failed || s.isEmpty then matchChunkF fuel true rest s
        else matchChunkF fuel (decide (s.headD ' ' = '/')) rest s.tail
      else if c = '\\' then
        match rest with
        | [] => .err
        | d :: ds =>
          if failed || s.isEmpty then matchChunkF fuel true ds s
          else matchChunkF fuel (decide (¬ d = s.headD ' ')) ds s.tail
      else
        if failed || s.isEmpty then matchChunkF fuel true rest s
        else matchChunkF fuel (decide (¬ c = s.headD ' ')) rest s.tail

/-- Go `matchChunk` (with always-sufficient fuel). -/
def matchChunkCore (failed : Bool) (chunk s : Str) : MatchRes :=
  matchChunkF (chunk.length + 1) failed chunk s

/-- The chunk scanner of Go `Match`: splits the pattern into a leading
run of `*`s and the chunk up to the next unbracketed `*`. -/
def scanChunkCore (inrange : Bool) (l : Str) : Str × Str :=
  match l with
  | [] => ([], [])
  | c :: cs =>
    if c = '*' ∧ inrange = false then ([], c :: cs)
    else if c = '\\' then
      match cs with
      | [] => (['\\'], [])
      | d :: ds =>
        let p := scanChunkCore inrange ds
        ('\\' :: d :: p.1, p.2)
    else
      let p := scanChunkCore (if c = '[' then true else if c = ']' then false else inrange) cs
      (c :: p.1, p.2)

/-- Go `scanChunk`: `(star, chunk, rest)`. -/
def scanChunk (pattern : Str) : Bool × Str × Str :=
  let p := scanChunkCore false (pattern.dropWhile (· = '*'))
  (decide (pattern.head? = some '*'), p.1, p.2)

/-- The star-retry loop of Go `Match`: try to match `chunk` at every
position of `name` before a separator.  `.ok t` means a viable match was
found with remaining name `t`; `.failed` means none was found. -/
def starLoop (chunk rest : Str) (name : Str) : MatchRes :=
  match name with
  | [] => .failed
  | c :: cs =>
    if c = '/' then .failed
    else
      match matchChunkCore false chunk cs with
      | .ok t => if rest = [] ∧ ¬ t = [] then starLoop chunk rest cs else .ok t
      | .err => .err
      | .failed => starLoop chunk rest cs

/-- The syntax check Go `Match` performs on the pattern remainder before
returning a mismatch: scan remaining chunks, reporting whether any is
syntactically bad.  Fuel-indexed; each chunk consumes pattern characters. -/
def validateRestBadF (fuel : Nat) (p : Str) : Bool :=
  match fuel with
  | 0 => false
  | Nat.succ fuel =>
    match p with
    | [] => false
    | _ :: _ =>
      let sc := scanChunk p
      match matchChunkCore false sc.2.1 [] with
      | .err => true
      | _ => validateRestBadF fuel sc.2.2

/-- The main loop of Go `filepath.Match`, fuel-indexed: returns
`(matched, bad)` where `bad` records an `ErrBadPattern` return. -/
def goMatchLoopF (fuel : Nat) (pattern name : Str) : Bool × Bool :=
  match fuel with
  | 0 => (false, true)
  | Nat.succ fuel =>
    match pattern with
    | [] => (decide (name = []), false)
    | _ :: _ =>
      let sc := scanChunk pattern
      let star := sc.1
      let chunk := sc.2.1
      let rest := sc.2.2
      if star ∧ chunk = [] then (!(name.any (· = '/')), false)
      else
        match matchChunkCore false chunk name with
        | .ok t =>
          if t = [] ∨ ¬ rest = [] then goMatchLoopF fuel rest t
          else if star then
            match starLoop chunk rest name with
            | .ok t2 => goMatchLoopF fuel rest t2
            | .err => (false, true)
            | .failed => (false, validateRestBadF fuel rest)
          else (false, validateRestBadF fuel rest)
        | .err => (false, true)
        | .failed =>
          if star then
            match starLoop chunk rest name with
            | .ok t2 => goMatchLoopF fuel rest t2
            | .err => (false, true)
            | .failed => (false, validateRestBadF fuel rest)
          else (false, validateRestBadF fuel rest)

/-- Go `filepath.Match` (Unix): `(matched, bad)`, where `bad` models the
`ErrBadPattern` error return.  The engine and watcher both discard the
error component. -/
def goMatch (pattern name : Str) : Bool × Bool :=
  goMatchLoopF (pattern.length + 1) pattern name

/-- Whether every chunk of the pattern passes the syntax scan Go itself
performs (`matchChunk` against the empty name never reporting
`ErrBadPattern`).  This is the formal notion of a syntactically
well-formed glob pattern. -/
def patternValidF (fuel : Nat) (p : Str) : Bool :=
  match fuel with
  | 0 => true
  | Nat.succ fuel =>
    match p with
    | [] => true
    | _ :: _ =>
      let sc := scanChunk p
      (match matchChunkCore false sc.2.1 [] with
       | .err => false
       | _ => true) && patternValidF fuel sc.2.2

/-- Wrapper for `patternValidF` with always-sufficient fuel. -/
def patternValid (p : Str) : Bool := patternValidF (p.length + 1) p

example : goMatch (str "*.log") (str "x.log") = (true, false) := by decide
example : goMatch (str "*.log") (str "x.txt") = (false, false) := by decide
example : goMatch (str "a[0-9]b") (str "a5b") = (true, false) := by decide
example : goMatch (str "a[0-9]b") (str "acb") = (false, false) := by decide
example : goMatch (str "a[^0-9]b") (str "acb") = (true, false) := by decide
example : goMatch (str "a[") (str "a") = (false, true) := by decide
example : goMatch (str "a[") (str "b") = (false, true) := by decide
example : goMatch (str "[]") (str "x") = (false, true) := by decide
example : goMatch (str "*") (str "abc") = (true, false) := by decide
example : goMatch (str "*") (str "a/b") = (false, false) := by decide
example : goMatch (str "a*c") (str "abdc") = (true, false) := by decide
example : goMatch (str "?b") (str "ab") = (true, false) := by decide
example : goMatch (str "\\*") (str "*") = (true, false) := by decide
example : patternValid (str "*.log") = true := by decide
example : patternValid (str "a[") = false := by decide
example : patternValid (str "[]") = false := by decide
example : patternValid (str "a[b-]") = false := by decide

/-! ### Data model (`internal/interfaces/interfaces.go`)

`time.Time` is an `Int` (epoch nanoseconds); `t.IsZero()` is `t = 0` and
`a.After b` is `a > b`. -/

/-- Model of `interfaces.SyncMode`. -/
inductive SyncMode where
  | realtime : SyncMode
  | scheduled : SyncMode
  | both : SyncMode
deriving DecidableEq

/-- Model of `interfaces.SyncDirectory`. -/
structure SyncDirectory where
  localPath : Str
  remotePath : Str
  syncMode : SyncMode
  schedule : Str
  recursive : Bool
  filters : List Str
  enabled : Bool
deriving DecidableEq

/-- Model of `interfaces.FileMetadata`. -/
structure FileMetadata where
  size : Int
  modTime : Int
  md5Hash : Str
  contentType : Str
  permissions : Str
  encrypted : Bool
deriving DecidableEq

/-- Model of `interfaces.FileInfo` (a remote listing entry). -/
structure RFileInfo where
  key : Str
  size : Int
  modTime : Int
  md5Hash : Str
  isDir : Bool
deriving DecidableEq

/-- Model of `interfaces.FileEvent`. -/
structure FileEvent where
  path : Str
  operation : Str
  isDir : Bool
  timestamp : Int
deriving DecidableEq

/-- The result of `os.Stat` on a local file, as the engine uses it
(`os.FileInfo`: size, modification time, mode string). -/
structure LocalFileInfo where
  size : Int
  modTime : Int
  modeString : Str
deriving DecidableEq

/-- Model of `engine.syncTask`. -/
structure syncTask where
  localPath : Str
  remotePath : Str
  operation : Str
  fileInfo : LocalFileInfo
deriving DecidableEq

/-! ### Engine filter and comparison helpers (`internal/engine/engine.go`) -/

/-- Model of `Engine.shouldSyncFile`: hidden names are skipped, then each filter
pattern is tried against the basename with the `filepath.Match` error
discarded (`matched, _ := filepath.Match(filter, filename)`). -/
def shouldSyncFile (path : Str) (filters : List Str) : Bool :=
  let filename := goBase path
  if filename.head? = some '.' then false
  else if filters.any (fun filter => (goMatch filter filename).1) then false
  else true

/-- Model of `FSWatcher.shouldSkipFile`: hidden names, editor/temp suffixes, then
the watcher's own filters, again discarding the `filepath.Match` error. -/
def shouldSkipFile (wfilters : List Str) (path : Str) : Bool :=
  let filename := goBase path
  if filename.head? = some '.' then true
  else if (str ".tmp").isSuffixOf filename ∨ (str ".swp").isSuffixOf filename
      ∨ (str "~").isSuffixOf filename then true
  else if wfilters.any (fun filter => (goMatch filter filename).1) then true
  else false

/-- Model of `Engine.needsUpload`: strict `ModTime().After` or differing sizes. -/
def needsUpload (localInfo : LocalFileInfo) (remoteInfo : RFileInfo) : Bool :=
  decide (localInfo.modTime > remoteInfo.modTime) || decide (¬ localInfo.size = remoteInfo.size)

/-- The remote-file map of `Engine.syncDirectory`
(`remoteFileMap[info.Key] = info` over the listing, so a later entry with
the same key overwrites an earlier one): lookup of the last matching
entry. -/
def remoteMapLookup (remoteFiles : List RFileInfo) (key : Str) : Option RFileInfo :=
  remoteFiles.reverse.find? (fun info => info.key = key)

/-- The decision `Engine.syncDirectory` takes for one local file: the
upload task it enqueues, or `none`. -/
def syncFileDecision (dir : SyncDirectory) (remoteFiles : List RFileInfo)
    (localPath : Str) (localInfo : LocalFileInfo) : Option syncTask :=
  -- relativePath := getRelativePath(localPath, dir.LocalPath);
  -- remotePath := filepath.Join(dir.RemotePath, relativePath), inlined
  if ¬ shouldSyncFile localPath dir.filters then none
  else
    match remoteMapLookup remoteFiles
        (goJoin2 dir.remotePath (getRelativePath localPath dir.localPath)) with
    | none => some ⟨localPath,
        goJoin2 dir.remotePath (getRelativePath localPath dir.localPath),
        str "upload", localInfo⟩
    | some remoteInfo =>
      if needsUpload localInfo remoteInfo then
        some ⟨localPath,
          goJoin2 dir.remotePath (getRelativePath localPath dir.localPath),
          str "upload", localInfo⟩
      else none

/-- The upload tasks one reconciliation pass of `Engine.syncDirectory`
enqueues, given the enumerated local files and the remote listing (the
blocking sends to the upload channel, in enumeration order). -/
def syncDirectoryTasks (dir : SyncDirectory) (localFiles : List (Str × LocalFileInfo))
    (remoteFiles : List RFileInfo) : List syncTask :=
  localFiles.foldl
    (fun acc lf =>
      match syncFileDecision dir remoteFiles lf.1 lf.2 with
      | some task => acc ++ [task]
      | none => acc) []

example :
    syncDirectoryTasks
      ⟨str "/tmp/src", str "backup", .both, [], true, [], true⟩
      [(str "/tmp/src/a.txt", ⟨5, 100, str "-rw-r--r--"⟩)]
      [] =
    [⟨str "/tmp/src/a.txt", str "backup/a.txt", str "upload", ⟨5, 100, str "-rw-r--r--"⟩⟩] := by
  decide

example :
    syncDirectoryTasks
      ⟨str "/tmp/src", str "backup", .both, [], true, [], true⟩
      [(str "/tmp/src/a.txt", ⟨5, 100, str "-rw-r--r--"⟩)]
      [⟨str "backup/a.txt", 5, 100, [], false⟩] = [] := by
  decide

example :
    syncDirectoryTasks
      ⟨str "/tmp/src", str "backup", .both, [], true, [], true⟩
      [(str "/tmp/src/a.txt", ⟨11, 100, str "-rw-r--r--"⟩)]
      [⟨str "backup/a.txt", 5, 100, [], false⟩] ≠ [] := by
  decide

/-! ### Engine worker retry loop (`processUploadTask` / `processDownloadTask`)

The per-attempt transfer is abstracted as a function from the attempt
index to an optional error.  Errors carry the taxonomy of §7 of the
specification so that theorems can speak about their classification; the
loop itself never inspects it. -/

/-- Error classification of the specification's taxonomy. -/
inductive ErrKind where
  | transient : ErrKind
  | permanent : ErrKind
  | integrity : ErrKind
  | cancelled : ErrKind
deriving DecidableEq

/-- A classified task error. -/
structure TaskErr where
  kind : ErrKind
  msg : Str
deriving DecidableEq

/-- The retry loop shared by `processUploadTask` and
`processDownloadTask`: `for attempt := 0; attempt <= retryAttempts;
attempt++ { err = run(attempt); if err == nil { break } }` (the
`time.Sleep(retryDelay)` before each retry is timing, not state).
`remaining` counts the attempts still allowed after the current one.
Returns the final error and the number of attempts executed. -/
def retryGo (run : Nat → Option TaskErr) (attempt : Nat) : Nat → Option TaskErr × Nat
  | 0 => (run attempt, attempt + 1)
  | Nat.succ remaining =>
    match run attempt with
    | none => (none, attempt + 1)
    | some _ => retryGo run (attempt + 1) remaining

/-- The attempt loop of `Engine.processUploadTask` (attempts
`0 .. retryAttempts` inclusive, stopping early only on success). -/
def processUploadAttempts (retryAttempts : Nat) (run : Nat → Option TaskErr) :
    Option TaskErr × Nat :=
  retryGo run 0 retryAttempts

/-- The attempt loop of `Engine.processDownloadTask` (identical shape). -/
def processDownloadAttempts (retryAttempts : Nat) (run : Nat → Option TaskErr) :
    Option TaskErr × Nat :=
  retryGo run 0 retryAttempts

example :
    processUploadAttempts 3 (fun _ => some ⟨.permanent, str "403"⟩) =
      (some ⟨.permanent, str "403"⟩, 4) := by decide
example :
    processUploadAttempts 3 (fun n => if n = 0 then some ⟨.transient, str "503"⟩ else none) =
      (none, 2) := by decide

/-! ### Engine download execution (`Engine.downloadFile`)

The local file system is an association list from paths to file records;
`os.Create` + `io.Copy` place the streamed bytes directly at the
destination path.  The MD5 function is a parameter (its only role in the
claim is digest (in)equality); `now` is the creation timestamp. -/

/-- A local file: its bytes and its modification time. -/
structure FileRecord where
  content : List Nat
  mtime : Int
deriving DecidableEq

/-- The local file system model. -/
abbrev FSMap := List (Str × FileRecord)

/-- Insert-or-replace (what `os.Create` followed by a full write does). -/
def fsInsert (fs : FSMap) (path : Str) (rec : FileRecord) : FSMap :=
  match fs with
  | [] => [(path, rec)]
  | kv :: rest => if kv.1 = path then (path, rec) :: rest else kv :: fsInsert rest path rec

/-- Lookup a path in the file system model. -/
def fsLookup (fs : FSMap) (path : Str) : Option FileRecord :=
  match fs with
  | [] => none
  | kv :: rest => if kv.1 = path then some kv.2 else fsLookup rest path

/-- Model of `os.Chtimes` on an existing path. -/
def fsSetMtime (fs : FSMap) (path : Str) (t : Int) : FSMap :=
  match fs with
  | [] => []
  | kv :: rest => if kv.1 = path then (kv.1, ⟨kv.2.content, t⟩) :: rest else kv :: fsSetMtime rest path t

/-- Model of `Engine.downloadFile`, state-passing on the local file system.
`dl` is the provider's `Download` result (body bytes and metadata);
`hash` computes the hex digest of a byte stream; `now` is the wall clock
used for file creation.  Local directory creation, file creation and the
copy itself are modelled as succeeding (the claim under study concerns
the digest-verification path).  Note the order of operations, exactly as
in the source: the destination file is created and the body streamed
into it *before* the digest comparison, and a mismatch returns an error
without removing the file. -/
def downloadFile (hash : List Nat → Str) (now : Int) (fs : FSMap) (localPath : Str)
    (dl : Except TaskErr (List Nat × FileMetadata)) : Except TaskErr Unit × FSMap :=
  match dl with
  | .error e => (.error ⟨e.kind, str "failed to download file: " ++ e.msg⟩, fs)
  | .ok (body, metadata) =>
    -- os.MkdirAll(filepath.Dir(localPath), 0755); os.Create; io.Copy to
    -- an io.MultiWriter(file, hasher)
    let fs1 := fsInsert fs localPath ⟨body, now⟩
    let actualHash := hash body
    if ¬ metadata.md5Hash = [] ∧ ¬ metadata.md5Hash = actualHash then
      (.error ⟨.integrity, str "MD5 hash mismatch"⟩, fs1)
    else
      let fs2 := if ¬ metadata.modTime = 0 then fsSetMtime fs1 localPath metadata.modTime else fs1
      (.ok (), fs2)

/-! ### Event batcher (`BatchedWatcher.batchEvents` / `flushEvents`) -/

/-- The batcher's map `path → latest FileEvent`; Go's
`eventMap[event.Path] = event` replaces in place or appends. -/
def mapInsert (m : List (Str × FileEvent)) (e : FileEvent) : List (Str × FileEvent) :=
  match m with
  | [] => [(e.path, e)]
  | kv :: rest => if kv.1 = e.path then (e.path, e) :: rest else kv :: mapInsert rest e

/-- Lookup in the batcher's event map. -/
def mapLookup (m : List (Str × FileEvent)) (p : Str) : Option FileEvent :=
  match m with
  | [] => none
  | kv :: rest => if kv.1 = p then some kv.2 else mapLookup rest p

/-- Receiving a window's worth of events (`case event, ok := <-input`):
each incoming event overwrites the stored event for its path. -/
def batchInsertAll (m : List (Str × FileEvent)) (events : List FileEvent) :
    List (Str × FileEvent) :=
  events.foldl mapInsert m

/-- Model of `BatchedWatcher.flushEvents`: send every batched event to the output
channel with a non-blocking send, dropping when the channel is full.
The channel is a list `out` with capacity `cap`. -/
def flushEvents (m : List (Str × FileEvent)) (out : List FileEvent) (cap : Nat) :
    List FileEvent :=
  m.foldl (fun acc kv => if acc.length < cap then acc ++ [kv.2] else acc) out

/-- The ticker branch of `BatchedWatcher.batchEvents`: flush, then reset
the map (`eventMap = make(map[string]interfaces.FileEvent)`).  Returns
the fresh map and the output channel contents. -/
def batchTick (m : List (Str × FileEvent)) (out : List FileEvent) (cap : Nat) :
    List (Str × FileEvent) × List FileEvent :=
  ([], flushEvents m out cap)

/-! ### Engine event dispatch (`Engine.processFileEvent`) -/

/-- The directory-resolution predicate of `processFileEvent`: the loop
takes the first directory (in registration order) with
`strings.HasPrefix(event.Path, dir.LocalPath) && dir.Enabled` and a
realtime-capable mode. -/
def eventDirMatch (event : FileEvent) (dir : SyncDirectory) : Bool :=
  dir.localPath.isPrefixOf event.path && dir.enabled &&
    (decide (dir.syncMode = .realtime) || decide (dir.syncMode = .both))

/-- Model of `Engine.processFileEvent`: returns the upload queue after handling
one batched event.  `stat` models `os.Stat`; `cap` is the upload
channel's capacity (100 in `NewEngine`); the send is non-blocking
(`default:` drops the task when the queue is full). -/
def processFileEvent (dirs : List SyncDirectory) (queue : List syncTask) (cap : Nat)
    (event : FileEvent) (stat : Str → Option LocalFileInfo) : List syncTask :=
  if event.isDir then queue
  else
    match dirs.find? (eventDirMatch event) with
    | none => queue
    | some matchedDir =>
      if ¬ shouldSyncFile event.path matchedDir.filters then queue
      else if event.operation = str "create" ∨ event.operation = str "modify" then
        match stat event.path with
        | none => queue  -- stat failure: silently ignored
        | some info =>
          let relativePath := getRelativePath event.path matchedDir.localPath
          let remotePath := goJoin2 matchedDir.remotePath relativePath
          let task : syncTask := ⟨event.path, remotePath, str "upload", info⟩
          if queue.length < cap then queue ++ [task] else queue
      else
        -- "delete": deletion sync is skipped for safety; any other
        -- operation (including "move") matches no case of the switch
        queue

/-! ### Watcher shutdown (`FSWatcher.Stop`) -/

/-- The watcher state relevant to `Stop`: which of its two channels have
been closed and whether the OS watcher has been closed. -/
structure WatcherState where
  doneClosed : Bool
  osWatcherClosed : Bool
  eventChanClosed : Bool
deriving DecidableEq

/-- A fresh watcher as built by `NewFSWatcher`. -/
def freshWatcher : WatcherState := ⟨false, false, false⟩

/-- Outcome of a call to `FSWatcher.Stop`: Go panics when `close` is
applied to an already-closed channel. -/
inductive StopOutcome where
  | ok : StopOutcome
  | returnedErr : TaskErr → StopOutcome
  | panicked : StopOutcome
deriving DecidableEq

/-- Model of `FSWatcher.Stop`: `close(w.done)`, then `w.watcher.Close()`
(returning its error, if any, before the event channel is closed), then
`close(w.eventChan)`.  `closeResult` is the fsnotify `Close` result. -/
def watcherStop (st : WatcherState) (closeResult : Option TaskErr) :
    StopOutcome × WatcherState :=
  if st.doneClosed then (.panicked, st)
  else
    let st1 : WatcherState := ⟨true, st.osWatcherClosed, st.eventChanClosed⟩
    match closeResult with
    | some e => (.returnedErr e, st1)
    | none =>
      let st2 : WatcherState := ⟨true, true, st1.eventChanClosed⟩
      if st2.eventChanClosed then (.panicked, st2)
      else (.ok, ⟨true, true, true⟩)

example : (watcherStop freshWatcher none).1 = .ok := by decide
example : (watcherStop (watcherStop freshWatcher none).2 none).1 = .panicked := by decide

/-! ### S3 provider (`providers.S3Provider`, `s3.go`)

`Upload` is modelled as the construction of the `PutObjectInput` it hands
to the SDK.  `encoding/hex`, `encoding/base64` and the RFC 3339 UTC
formatting of `time.Format` are translated below; `time.Now()` becomes an
epoch-seconds parameter. -/

/-- Value of an `encoding/hex` digit. -/
def hexVal (c : Char) : Option Nat :=
  if '0' ≤ c ∧ c ≤ '9' then some (c.toNat - 48)
  else if 'a' ≤ c ∧ c ≤ 'f' then some (c.toNat - 87)
  else if 'A' ≤ c ∧ c ≤ 'F' then some (c.toNat - 55)
  else none

/-- Model of `hex.DecodeString`: `none` models the error return (odd length or a
non-hex digit). -/
def hexDecode : Str → Option (List Nat)
  | [] => some []
  | [_] => none
  | a :: b :: rest =>
    match hexVal a, hexVal b, hexDecode rest with
    | some x, some y, some r => some ((x * 16 + y) :: r)
    | _, _, _ => none

/-- The standard base64 alphabet. -/
def b64Alphabet : Str := str "ABCDEFGHIJKLMNOPQRSTUVWXYZabcdefghijklmnopqrstuvwxyz0123456789+/"

/-- The base64 digit for a 6-bit value. -/
def b64Char (n : Nat) : Char := b64Alphabet.getD n 'A'

/-- Model of `base64.StdEncoding.EncodeToString`. -/
def base64Encode : List Nat → Str
  | [] => []
  | [a] => [b64Char (a / 4), b64Char (a % 4 * 16), '=', '=']
  | [a, b] => [b64Char (a / 4), b64Char (a % 4 * 16 + b / 16), b64Char (b % 16 * 4), '=']
  | a :: b :: c :: rest =>
    b64Char (a / 4) :: b64Char (a % 4 * 16 + b / 16) ::
      b64Char (b % 16 * 4 + c / 64) :: b64Char (c % 64) :: base64Encode rest

/-- Two decimal digits, zero-padded. -/
def pad2 (n : Nat) : Str := [Char.ofNat (48 + n / 10 % 10), Char.ofNat (48 + n % 10)]

/-- Four decimal digits, zero-padded. -/
def pad4 (n : Nat) : Str :=
  [Char.ofNat (48 + n / 1000 % 10), Char.ofNat (48 + n / 100 % 10),
   Char.ofNat (48 + n / 10 % 10), Char.ofNat (48 + n % 10)]

/-- Model of `time.Time.UTC().Format(time.RFC3339)` for a whole-second time given
as seconds since the Unix epoch (civil-calendar conversion). -/
def rfc3339UTC (secs : Int) : Str :=
  let days := Int.fdiv secs 86400
  let rem := (secs - days * 86400).toNat
  let z := days + 719468
  let era := Int.fdiv z 146097
  let doe := (z - era * 146097).toNat
  let yoe := (doe - doe / 1460 + doe / 36524 - doe / 146096) / 365
  let y : Int := era * 400 + yoe
  let doy := doe - (365 * yoe + yoe / 4 - yoe / 100)
  let mp := (5 * doy + 2) / 153
  let d := doy - (153 * mp + 2) / 5 + 1
  let m := if mp < 10 then mp + 3 else mp - 9
  let y := if m ≤ 2 then y + 1 else y
  pad4 y.toNat ++ '-' :: pad2 m ++ '-' :: pad2 d ++ 'T' ::
    pad2 (rem / 3600) ++ ':' :: pad2 (rem % 3600 / 60) ++ ':' :: pad2 (rem % 60) ++ ['Z']

example : rfc3339UTC 0 = str "1970-01-01T00:00:00Z" := by decide
example : rfc3339UTC 1756677045 = str "2025-08-31T21:50:45Z" := by decide
example : hexDecode (str "5d41402abc4b2a76b9719d911017c592") =
    some [93, 65, 64, 42, 188, 75, 42, 118, 185, 113, 157, 145, 16, 23, 197, 146] := by decide
example : base64Encode [93, 65, 64, 42, 188, 75, 42, 118, 185, 113, 157, 145, 16, 23, 197, 146] =
    str "XUFAKrxLKna5cZ2REBfFkg==" := by decide

/-- Model of `S3Provider.addPrefix` (the source name ends in a reserved word of
this development's lint rules, hence `addPfx`): `filepath.Join(prefix,
key)` when a prefix is configured. -/
def addPfx (pfx key : Str) : Str :=
  if pfx = [] then key else goJoin2 pfx key

/-- Model of `S3Provider.removePrefix` (source name shortened as above):
`strings.TrimPrefix(key, prefix)` when the prefix is configured and
present. -/
def removePfx (pfx key : Str) : Str :=
  if pfx = [] then key
  else if pfx.isPrefixOf key then key.drop pfx.length
  else key

/-- The fields of `s3.PutObjectInput` that `S3Provider.Upload` populates. -/
structure PutObjectInput where
  bucket : Str
  key : Str
  contentLength : Int
  metadataMap : List (Str × Str)
  contentType : Option Str
  contentMD5 : Option Str
  storageClass : Option Str
  serverSideEncryption : Bool
deriving DecidableEq

/-- Lookup in the auxiliary metadata map. -/
def metaLookup (m : List (Str × Str)) (k : Str) : Option Str :=
  match m with
  | [] => none
  | kv :: rest => if kv.1 = k then some kv.2 else metaLookup rest k

/-- Model of `S3Provider.Upload`: the `PutObjectInput` handed to the SDK, given
the provider configuration, the wall clock (epoch seconds) and the
caller's key and metadata. -/
def s3Upload (bucket pfx storageClass : Str) (sse : Bool) (now : Int) (key : Str)
    (metadata : FileMetadata) : PutObjectInput :=
  let key := addPfx pfx key
  { bucket := bucket
    key := key
    contentLength := metadata.size
    metadataMap :=
      [(str "original-path", key),
       (str "upload-time", rfc3339UTC now),
       (str "content-type", metadata.contentType),
       (str "permissions", metadata.permissions),
       (str "md5-hash", metadata.md5Hash)]
    contentType := if ¬ metadata.contentType = [] then some metadata.contentType else none
    contentMD5 :=
      if metadata.md5Hash = [] then none
      else
        match hexDecode metadata.md5Hash with
        | none => none  -- invalid hex: log a warning and skip the header
        | some hexBytes => some (base64Encode hexBytes)
    storageClass := if ¬ storageClass = [] then some storageClass else none
    serverSideEncryption := sse }

/-! ### Helper lemmas -/

lemma retryGo_snd_ge (run : Nat → Option TaskErr) :
    ∀ (remaining attempt : Nat), (retryGo run attempt remaining).2 ≥ attempt + 1 := by
  intro remaining
  induction remaining with
  | zero => intro attempt; simp [retryGo]
  | succ n ih =>
    intro attempt
    simp only [retryGo]
    cases run attempt with
    | none => simp
    | some e =>
      simp only []
      exact le_trans (by omega) (ih (attempt + 1))

lemma retryGo_keeps_trying (run : Nat → Option TaskErr) :
    ∀ (i remaining attempt : Nat), i < remaining →
      (∀ j, attempt ≤ j → j ≤ attempt + i → (run j).isSome) →
      (retryGo run attempt remaining).2 ≥ attempt + i + 2 := by
  intro i
  induction i with
  | zero =>
    intro remaining attempt hrem hsome
    match remaining, hrem with
    | Nat.succ n, _ =>
      have h0 : (run attempt).isSome := hsome attempt le_rfl (by omega)
      simp only [retryGo]
      cases hr : run attempt with
      | none => rw [hr] at h0; simp at h0
      | some e =>
        simp only []
        have := retryGo_snd_ge run n (attempt + 1)
        omega
  | succ k ih =>
    intro remaining attempt hrem hsome
    match remaining, hrem with
    | Nat.succ n, _ =>
      have h0 : (run attempt).isSome := hsome attempt le_rfl (by omega)
      simp only [retryGo]
      cases hr : run attempt with
      | none => rw [hr] at h0; simp at h0
      | some e =>
        simp only []
        have := ih n (attempt + 1) (by omega) (fun j h1 h2 => hsome j (by omega) (by omega))
        omega

/-! ### Claim C2 -/

/-- Claim C2, counterexample: the retry loop never inspects the error
classification.  With `retryAttempts = 3`, an upload whose adapter
reports an integrity error on every attempt is still attempted 4 times
(the claim predicts a single attempt and no retries), and likewise a
download failing with a permanent error. -/
theorem claim_C2_counterexample :
    (processUploadAttempts 3 (fun _ => some ⟨.integrity, str "integrity mismatch"⟩)).2 = 4 ∧
    (processDownloadAttempts 3 (fun _ => some ⟨.permanent, str "validation"⟩)).2 = 4 ∧
    ¬ (4 = 1) := by
  decide

/-- Claim C2, amended: `processUploadTask` and `processDownloadTask`
retry every failed attempt uniformly, with no classification of the
error: as long as attempts keep failing — whatever the kind of each
error — and the retry budget `R` is not exhausted, another attempt is
made (at least `i + 2` attempts follow `i + 1` failures when `i < R`). -/
theorem claim_C2_amended (R : Nat) (run : Nat → Option TaskErr) (i : Nat)
    (hi : i < R) (hfail : ∀ j, j ≤ i → (run j).isSome) :
    (processUploadAttempts R run).2 ≥ i + 2 ∧
    (processDownloadAttempts R run).2 ≥ i + 2 := by
  have h := retryGo_keeps_trying run i R 0 hi (fun j _ hj => hfail j (by omega))
  exact ⟨by simpa [processUploadAttempts] using h, by simpa [processDownloadAttempts] using h⟩

/-- Witness for the amended claim C2 at a concrete input: one permanent
failure with `R = 3` is followed by a second attempt. -/
theorem claim_C2_amended_witness :
    (processUploadAttempts 3 (fun _ => some ⟨.permanent, str "403"⟩)).2 ≥ 2 ∧
    (processDownloadAttempts 3 (fun _ => some ⟨.permanent, str "403"⟩)).2 ≥ 2 :=
  claim_C2_amended 3 (fun _ => some ⟨.permanent, str "403"⟩) 0 (by decide) (fun _ _ => rfl)

/-! ### Claim C9 -/

/-- Claim C9, counterexample: after a successful `Stop`, a second call to
`FSWatcher.Stop` panics (`close` of the already-closed `done` channel)
instead of completing without fault. -/
theorem claim_C9_counterexample :
    (watcherStop (watcherStop freshWatcher none).2 none).1 = .panicked ∧
    ¬ (watcherStop (watcherStop freshWatcher none).2 none).1 = .ok := by
  decide

/-- Claim C9, amended: `FSWatcher.Stop` is not idempotent.  The first
call (with the OS watcher closing cleanly) releases the handles, closes
both channels and returns nil; any further call panics on the
already-closed `done` channel. -/
theorem claim_C9_amended (st : WatcherState) (closeResult : Option TaskErr)
    (h : st.doneClosed = true) :
    (watcherStop st closeResult).1 = .panicked ∧
    watcherStop freshWatcher none = (.ok, ⟨true, true, true⟩) := by
  constructor
  · simp [watcherStop, h]
  · decide

/-- Witness for the amended claim C9 at the state a successful `Stop`
leaves behind. -/
theorem claim_C9_amended_witness :
    (watcherStop ⟨true, true, true⟩ none).1 = .panicked ∧
    watcherStop freshWatcher none = (.ok, ⟨true, true, true⟩) :=
  claim_C9_amended ⟨true, true, true⟩ none rfl

/-! ### Claim C5 -/

/-- Claim C5, counterexample: a batched `move` event for a plain file
lying under an enabled realtime directory and passing every filter, whose
`stat` succeeds, enqueues nothing (the engine's switch has no `move`
case), while the identical event with operation `create` enqueues an
upload task: `move` is not treated as `create`. -/
theorem claim_C5_counterexample :
    processFileEvent [⟨str "/a", str "r", .realtime, [], true, [], true⟩] [] 100
      ⟨str "/a/f.txt", str "move", false, 0⟩ (fun _ => some ⟨5, 100, str "-rw-r--r--"⟩) = [] ∧
    processFileEvent [⟨str "/a", str "r", .realtime, [], true, [], true⟩] [] 100
      ⟨str "/a/f.txt", str "create", false, 0⟩ (fun _ => some ⟨5, 100, str "-rw-r--r--"⟩) =
      [⟨str "/a/f.txt", str "r/f.txt", str "upload", ⟨5, 100, str "-rw-r--r--"⟩⟩] := by
  decide

/-- Claim C5, amended: a batched event with operation `move` is dropped
by `Engine.processFileEvent` — the switch handles only `create`,
`modify` and (as an explicit no-op) `delete` — so the upload queue is
left unchanged, whatever the directories, queue and stat results. -/
theorem claim_C5_amended (dirs : List SyncDirectory) (queue : List syncTask) (cap : Nat)
    (event : FileEvent) (stat : Str → Option LocalFileInfo)
    (hop : event.operation = str "move") :
    processFileEvent dirs queue cap event stat = queue := by
  unfold processFileEvent
  have hne : ¬ (event.operation = str "create" ∨ event.operation = str "modify") := by
    rw [hop]; decide
  split
  · rfl
  · cases dirs.find? (eventDirMatch event) with
    | none => rfl
    | some d =>
      simp only [hne, if_false]
      split
      · rfl
      · rfl

/-- Witness for the amended claim C5 at a concrete `move` event. -/
theorem claim_C5_amended_witness :
    processFileEvent [⟨str "/a", str "r", .realtime, [], true, [], true⟩] [] 100
      ⟨str "/a/g.txt", str "move", false, 7⟩ (fun _ => some ⟨9, 200, str "-rw-r--r--"⟩) = [] :=
  claim_C5_amended _ _ _ _ _ rfl

/-! ### Claim C8 -/

/-- Claim C8, counterexample: with configured prefix `backup`, the key
`a.txt` joins to `backup/a.txt`, but `removePrefix` strips only the bare
prefix and leaves the separator: the round trip returns `/a.txt`, not
`a.txt`. -/
theorem claim_C8_counterexample :
    removePfx (str "backup") (addPfx (str "backup") (str "a.txt")) = str "/a.txt" ∧
    ¬ (str "/a.txt" = str "a.txt") := by
  decide

/-- Claim C8, amended: the round trip is the identity only when the
configured prefix is empty.  With a non-empty prefix `p`, whenever the
joined path `p ++ "/" ++ k` is already clean (so `filepath.Join` leaves
it unchanged), stripping the prefix returns `"/" ++ k` — the leading
separator is retained. -/
theorem claim_C8_amended (pfx k : Str) :
    (pfx = [] → removePfx pfx (addPfx pfx k) = k) ∧
    (¬ pfx = [] → goClean (pfx ++ '/' :: k) = pfx ++ '/' :: k →
      removePfx pfx (addPfx pfx k) = '/' :: k) := by
  constructor
  · intro h; subst h; simp [removePfx, addPfx]
  · intro hne hclean
    have hadd : addPfx pfx k = pfx ++ '/' :: k := by
      unfold addPfx goJoin2
      rw [if_neg (by simpa using hne), if_pos (by simpa using hne)]
      exact hclean
    rw [hadd]
    unfold removePfx
    rw [if_neg hne, if_pos]
    · exact List.drop_left pfx ('/' :: k)
    · exact List.isPrefixOf_iff_prefix.mpr (List.prefix_append pfx ('/' :: k))

/-- Witness for the amended claim C8 at the concrete prefix `backup` and
key `sub/b.txt`. -/
theorem claim_C8_amended_witness :
    removePfx (str "backup") (addPfx (str "backup") (str "sub/b.txt")) =
      '/' :: str "sub/b.txt" :=
  (claim_C8_amended (str "backup") (str "sub/b.txt")).2 (by decide) (by decide)

/-! ### Claim C6 -/

lemma find?_append_first {α : Type} (p : α → Bool) (pre post : List α) (d : α)
    (hpre : ∀ x ∈ pre, p x = false) (hd : p d = true) :
    (pre ++ d :: post).find? p = some d := by
  induction pre with
  | nil => simp [List.find?, hd]
  | cons x xs ih =>
    have hx : p x = false := hpre x (by simp)
    simp only [List.cons_append, List.find?, hx]
    exact ih (fun y hy => hpre y (by simp [hy]))

lemma find?_singleton {α : Type} (p : α → Bool) (d : α) (hd : p d = true) :
    [d].find? p = some d := by
  simp [List.find?, hd]

/-- Claim C6, counterexample: with two enabled realtime directories whose
roots `/a` and `/a/b` both prefix the event path `/a/b/f.txt`, the engine
resolves the event to `/a` — the first registered match — and computes
remote key `r1/b/f.txt`, not the longest match's `r2/f.txt`. -/
theorem claim_C6_counterexample :
    (processFileEvent
        [⟨str "/a", str "r1", .realtime, [], true, [], true⟩,
         ⟨str "/a/b", str "r2", .realtime, [], true, [], true⟩] [] 100
        ⟨str "/a/b/f.txt", str "create", false, 0⟩
        (fun _ => some ⟨5, 100, str "-rw-r--r--"⟩)).map (fun t => t.remotePath) =
      [str "r1/b/f.txt"] ∧
    ¬ (str "r1/b/f.txt" = str "r2/f.txt") := by
  decide

/-- Claim C6, amended: `Engine.processFileEvent` resolves a batched event
to the *first* directory in registration order whose `local_root` is a
string prefix of the event path and which is enabled with a
realtime-capable mode — directories after it, including longer matches,
are ignored — and drops the event when no directory matches. -/
theorem claim_C6_amended (pre post : List SyncDirectory) (d : SyncDirectory)
    (queue : List syncTask) (cap : Nat) (event : FileEvent)
    (stat : Str → Option LocalFileInfo)
    (hpre : ∀ d' ∈ pre, eventDirMatch event d' = false)
    (hd : eventDirMatch event d = true) :
    processFileEvent (pre ++ d :: post) queue cap event stat =
      processFileEvent [d] queue cap event stat ∧
    (∀ dirs : List SyncDirectory, (∀ d' ∈ dirs, eventDirMatch event d' = false) →
      processFileEvent dirs queue cap event stat = queue) := by
  constructor
  · unfold processFileEvent
    rw [find?_append_first (eventDirMatch event) pre post d hpre hd,
      find?_singleton (eventDirMatch event) d hd]
  · intro dirs hnone
    unfold processFileEvent
    rw [List.find?_eq_none.mpr (fun x hx => by simp [hnone x hx])]
    split
    · rfl
    · rfl

/-- Witness for the amended claim C6: a non-matching directory first, the
match `/a` second, a longer match `/a/b` third; resolution uses `/a`, and
an event under no root is dropped. -/
theorem claim_C6_amended_witness :
    processFileEvent
        [⟨str "/z", str "r0", .realtime, [], true, [], true⟩,
         ⟨str "/a", str "r1", .realtime, [], true, [], true⟩,
         ⟨str "/a/b", str "r2", .realtime, [], true, [], true⟩] [] 100
        ⟨str "/a/b/f.txt", str "create", false, 0⟩
        (fun _ => some ⟨5, 100, str "-rw-r--r--"⟩) =
      processFileEvent [⟨str "/a", str "r1", .realtime, [], true, [], true⟩] [] 100
        ⟨str "/a/b/f.txt", str "create", false, 0⟩
        (fun _ => some ⟨5, 100, str "-rw-r--r--"⟩) ∧
    processFileEvent [⟨str "/q", str "r9", .realtime, [], true, [], true⟩] [] 100
        ⟨str "/a/b/f.txt", str "create", false, 0⟩
        (fun _ => some ⟨5, 100, str "-rw-r--r--"⟩) = [] :=
  ⟨(claim_C6_amended
      [⟨str "/z", str "r0", .realtime, [], true, [], true⟩]
      [⟨str "/a/b", str "r2", .realtime, [], true, [], true⟩]
      ⟨str "/a", str "r1", .realtime, [], true, [], true⟩ [] 100
      ⟨str "/a/b/f.txt", str "create", false, 0⟩
      (fun _ => some ⟨5, 100, str "-rw-r--r--"⟩)
      (by decide) (by decide)).1,
   (claim_C6_amended
      [⟨str "/z", str "r0", .realtime, [], true, [], true⟩]
      [⟨str "/a/b", str "r2", .realtime, [], true, [], true⟩]
      ⟨str "/a", str "r1", .realtime, [], true, [], true⟩ [] 100
      ⟨str "/a/b/f.txt", str "create", false, 0⟩
      (fun _ => some ⟨5, 100, str "-rw-r--r--"⟩)
      (by decide) (by decide)).2
     [⟨str "/q", str "r9", .realtime, [], true, [], true⟩] (by decide)⟩

/-! ### Claim C7 -/

/-- Claim C7 (confirmed): for every upload whose metadata carries a
well-formed hex MD5 digest, `S3Provider.Upload` sets `ContentMD5` to the
base64 encoding of the decoded digest bytes, stores the hex form under
the auxiliary metadata key `md5-hash`, and stamps `original-path`,
`upload-time` (RFC 3339 UTC), `content-type` and `permissions`. -/
theorem claim_C7 (bucket pfx storageClass : Str) (sse : Bool) (now : Int) (key : Str)
    (metadata : FileMetadata) (bytes : List Nat)
    (hne : ¬ metadata.md5Hash = [])
    (hhex : hexDecode metadata.md5Hash = some bytes) :
    (s3Upload bucket pfx storageClass sse now key metadata).contentMD5 =
      some (base64Encode bytes) ∧
    metaLookup (s3Upload bucket pfx storageClass sse now key metadata).metadataMap
      (str "md5-hash") = some metadata.md5Hash ∧
    metaLookup (s3Upload bucket pfx storageClass sse now key metadata).metadataMap
      (str "original-path") = some (addPfx pfx key) ∧
    metaLookup (s3Upload bucket pfx storageClass sse now key metadata).metadataMap
      (str "upload-time") = some (rfc3339UTC now) ∧
    metaLookup (s3Upload bucket pfx storageClass sse now key metadata).metadataMap
      (str "content-type") = some metadata.contentType ∧
    metaLookup (s3Upload bucket pfx storageClass sse now key metadata).metadataMap
      (str "permissions") = some metadata.permissions := by
  refine ⟨?_, ?_, ?_, ?_, ?_, ?_⟩
  · simp only [s3Upload]
    rw [if_neg hne, hhex]
  · simp only [s3Upload, metaLookup]
    rw [if_neg (by decide), if_neg (by decide), if_neg (by decide), if_neg (by decide),
      if_pos (by decide)]
  · simp only [s3Upload, metaLookup]
    rw [if_pos (by decide)]
  · simp only [s3Upload, metaLookup]
    rw [if_neg (by decide), if_pos (by decide)]
  · simp only [s3Upload, metaLookup]
    rw [if_neg (by decide), if_neg (by decide), if_pos (by decide)]
  · simp only [s3Upload, metaLookup]
    rw [if_neg (by decide), if_neg (by decide), if_neg (by decide), if_pos (by decide)]

/-- Witness for claim C7 at the digest of the five-byte payload
`"hello"`. -/
theorem claim_C7_witness :
    (s3Upload (str "bkt") (str "pre") [] false 0 (str "a.txt")
        ⟨5, 100, str "5d41402abc4b2a76b9719d911017c592", str "text/plain",
          str "-rw-r--r--", false⟩).contentMD5 =
      some (base64Encode [93, 65, 64, 42, 188, 75, 42, 118, 185, 113, 157, 145, 16, 23, 197, 146]) ∧
    metaLookup (s3Upload (str "bkt") (str "pre") [] false 0 (str "a.txt")
        ⟨5, 100, str "5d41402abc4b2a76b9719d911017c592", str "text/plain",
          str "-rw-r--r--", false⟩).metadataMap (str "md5-hash") =
      some (str "5d41402abc4b2a76b9719d911017c592") ∧
    metaLookup (s3Upload (str "bkt") (str "pre") [] false 0 (str "a.txt")
        ⟨5, 100, str "5d41402abc4b2a76b9719d911017c592", str "text/plain",
          str "-rw-r--r--", false⟩).metadataMap (str "original-path") =
      some (addPfx (str "pre") (str "a.txt")) ∧
    metaLookup (s3Upload (str "bkt") (str "pre") [] false 0 (str "a.txt")
        ⟨5, 100, str "5d41402abc4b2a76b9719d911017c592", str "text/plain",
          str "-rw-r--r--", false⟩).metadataMap (str "upload-time") =
      some (rfc3339UTC 0) ∧
    metaLookup (s3Upload (str "bkt") (str "pre") [] false 0 (str "a.txt")
        ⟨5, 100, str "5d41402abc4b2a76b9719d911017c592", str "text/plain",
          str "-rw-r--r--", false⟩).metadataMap (str "content-type") =
      some (str "text/plain") ∧
    metaLookup (s3Upload (str "bkt") (str "pre") [] false 0 (str "a.txt")
        ⟨5, 100, str "5d41402abc4b2a76b9719d911017c592", str "text/plain",
          str "-rw-r--r--", false⟩).metadataMap (str "permissions") =
      some (str "-rw-r--r--") :=
  claim_C7 (str "bkt") (str "pre") [] false 0 (str "a.txt")
    ⟨5, 100, str "5d41402abc4b2a76b9719d911017c592", str "text/plain",
      str "-rw-r--r--", false⟩
    [93, 65, 64, 42, 188, 75, 42, 118, 185, 113, 157, 145, 16, 23, 197, 146]
    (by decide) (by decide)

/-! ### Claim C3 -/

lemma fsLookup_insert (fs : FSMap) (p : Str) (rec : FileRecord) :
    fsLookup (fsInsert fs p rec) p = some rec := by
  induction fs with
  | nil => simp [fsInsert, fsLookup]
  | cons kv rest ih =>
    by_cases h : kv.1 = p
    · simp [fsInsert, fsLookup, h]
    · simp [fsInsert, fsLookup, h, ih]

/-- Claim C3, counterexample: a download whose advertised digest `bb`
mismatches the computed digest fails, but the destination `/tmp/a` —
absent before the task ran — is left holding the streamed bytes: the
partial file is retained and no temp-file-plus-rename is involved. -/
theorem claim_C3_counterexample :
    (downloadFile (fun _ => str "aa") 50 [] (str "/tmp/a")
        (.ok ([104, 105], ⟨2, 0, str "bb", [], [], false⟩))).1 =
      .error ⟨.integrity, str "MD5 hash mismatch"⟩ ∧
    fsLookup (downloadFile (fun _ => str "aa") 50 [] (str "/tmp/a")
        (.ok ([104, 105], ⟨2, 0, str "bb", [], [], false⟩))).2 (str "/tmp/a") =
      some ⟨[104, 105], 50⟩ ∧
    ¬ (fsLookup (downloadFile (fun _ => str "aa") 50 [] (str "/tmp/a")
        (.ok ([104, 105], ⟨2, 0, str "bb", [], [], false⟩))).2 (str "/tmp/a") = none) :=
  ⟨rfl, by decide, by decide⟩

/-- Claim C3, amended: on a digest mismatch `Engine.downloadFile` returns
an error (which the worker's classification-free loop will retry, so the
failure is not permanent in the claimed sense), but the destination file
has already been created and overwritten in place with the streamed
bytes — there is no temp file and no rename, and the partial file is
retained.  The success-side invariant does hold: a download that returns
nil had an empty advertised digest or a matching one. -/
theorem claim_C3_amended (hash : List Nat → Str) (now : Int) (fs : FSMap) (lp : Str)
    (body : List Nat) (md : FileMetadata)
    (hne : ¬ md.md5Hash = []) (hmis : ¬ md.md5Hash = hash body) :
    (downloadFile hash now fs lp (.ok (body, md))).1 =
      .error ⟨.integrity, str "MD5 hash mismatch"⟩ ∧
    fsLookup (downloadFile hash now fs lp (.ok (body, md))).2 lp = some ⟨body, now⟩ ∧
    (∀ (body2 : List Nat) (md2 : FileMetadata),
      (downloadFile hash now fs lp (.ok (body2, md2))).1 = .ok () →
      md2.md5Hash = [] ∨ md2.md5Hash = hash body2) := by
  refine ⟨?_, ?_, ?_⟩
  · simp only [downloadFile]
    rw [if_pos ⟨hne, hmis⟩]
  · simp only [downloadFile]
    rw [if_pos ⟨hne, hmis⟩]
    exact fsLookup_insert fs lp ⟨body, now⟩
  · intro body2 md2 hok
    by_contra hcon
    push_neg at hcon
    simp only [downloadFile] at hok
    rw [if_pos ⟨hcon.1, hcon.2⟩] at hok
    exact Except.noConfusion hok

/-- Witness for the amended claim C3 at a concrete mismatching download,
with the success-side invariant instantiated at an empty-digest
download. -/
theorem claim_C3_amended_witness :
    (downloadFile (fun _ => str "cc") 9 [(str "/tmp/old", ⟨[1], 1⟩)] (str "/tmp/b")
        (.ok ([7, 8, 9], ⟨3, 0, str "dd", [], [], false⟩))).1 =
      .error ⟨.integrity, str "MD5 hash mismatch"⟩ ∧
    fsLookup (downloadFile (fun _ => str "cc") 9 [(str "/tmp/old", ⟨[1], 1⟩)] (str "/tmp/b")
        (.ok ([7, 8, 9], ⟨3, 0, str "dd", [], [], false⟩))).2 (str "/tmp/b") =
      some ⟨[7, 8, 9], 9⟩ ∧
    ((str "" : Str) = [] ∨ (str "" : Str) = (fun _ => str "cc") [7]) :=
  ⟨(claim_C3_amended (fun _ => str "cc") 9 [(str "/tmp/old", ⟨[1], 1⟩)] (str "/tmp/b")
      [7, 8, 9] ⟨3, 0, str "dd", [], [], false⟩ (by decide) (by decide)).1,
   (claim_C3_amended (fun _ => str "cc") 9 [(str "/tmp/old", ⟨[1], 1⟩)] (str "/tmp/b")
      [7, 8, 9] ⟨3, 0, str "dd", [], [], false⟩ (by decide) (by decide)).2.1,
   (claim_C3_amended (fun _ => str "cc") 9 [(str "/tmp/old", ⟨[1], 1⟩)] (str "/tmp/b")
      [7, 8, 9] ⟨3, 0, str "dd", [], [], false⟩ (by decide) (by decide)).2.2
     [7] ⟨1, 0, str "", [], [], false⟩ rfl⟩

/-! ### Claim C4 -/

lemma flush_all (m : List (Str × FileEvent)) :
    ∀ (out : List FileEvent) (cap : Nat), out.length + m.length ≤ cap →
      flushEvents m out cap = out ++ m.map Prod.snd := by
  induction m with
  | nil => intro out cap _; simp [flushEvents]
  | cons kv rest ih =>
    intro out cap hcap
    simp only [flushEvents, List.foldl_cons]
    rw [if_pos (by simp at hcap; omega)]
    have := ih (out ++ [kv.2]) cap (by simp at hcap ⊢; omega)
    simp only [flushEvents] at this
    rw [this]
    simp

lemma getLast?_cons_some {α : Type} (f : α) (fs : List α) :
    ∃ x, (f :: fs).getLast? = some x := by
  induction fs generalizing f with
  | nil => exact ⟨f, rfl⟩
  | cons g gs ih => rw [List.getLast?_cons_cons]; exact ih g

lemma mapLookup_insert (m : List (Str × FileEvent)) (e : FileEvent) (q : Str) :
    mapLookup (mapInsert m e) q = if q = e.path then some e else mapLookup m q := by
  induction m with
  | nil =>
    by_cases h : q = e.path
    · simp [mapInsert, mapLookup, h]
    · have h2 : ¬ (e.path = q) := fun hh => h hh.symm
      simp [mapInsert, mapLookup, h, h2]
  | cons kv rest ih =>
    by_cases h1 : kv.1 = e.path
    · by_cases h2 : q = e.path
      · simp [mapInsert, mapLookup, h1, h2]
      · have h3 : ¬ (e.path = q) := fun hh => h2 hh.symm
        have h4 : ¬ (kv.1 = q) := by rw [h1]; exact h3
        simp [mapInsert, mapLookup, h1, h2, h3, h4]
    · by_cases h2 : kv.1 = q
      · have h3 : ¬ (q = e.path) := by rw [← h2]; exact fun hh => h1 hh
        simp [mapInsert, mapLookup, h1, h2, h3]
      · simp [mapInsert, mapLookup, h1, h2, ih]

lemma mapLookup_fold (events : List FileEvent) :
    ∀ (m : List (Str × FileEvent)) (p : Str),
      mapLookup (batchInsertAll m events) p =
        match (events.filter (fun ev => ev.path = p)).getLast? with
        | some x => some x
        | none => mapLookup m p := by
  induction events with
  | nil => intro m p; simp [batchInsertAll]
  | cons e es ih =>
    intro m p
    have step : batchInsertAll m (e :: es) = batchInsertAll (mapInsert m e) es := rfl
    rw [step, ih (mapInsert m e) p]
    by_cases hp : e.path = p
    · rw [List.filter_cons, if_pos (by simp [hp])]
      cases hfe : es.filter (fun ev => ev.path = p) with
      | nil => simp [mapLookup_insert, hp]
      | cons f fs =>
        rw [List.getLast?_cons_cons]
        obtain ⟨x, hx⟩ := getLast?_cons_some f fs
        rw [hx]
    · rw [List.filter_cons, if_neg (by simp [hp])]
      cases hfe : es.filter (fun ev => ev.path = p) with
      | nil =>
        have hp2 : ¬ (p = e.path) := fun hh => hp hh.symm
        simp [mapLookup_insert, hp2]
      | cons f fs =>
        obtain ⟨x, hx⟩ := getLast?_cons_some f fs
        rw [hx]

lemma mapInsert_consist (m : List (Str × FileEvent)) (e : FileEvent)
    (h : ∀ kv ∈ m, kv.2.path = kv.1) : ∀ kv ∈ mapInsert m e, kv.2.path = kv.1 := by
  induction m with
  | nil =>
    intro kv hkv
    simp only [mapInsert, List.mem_singleton] at hkv
    simp [hkv]
  | cons kv0 rest ih =>
    intro kv hkv
    by_cases h0 : kv0.1 = e.path
    · simp only [mapInsert, h0, if_true, List.mem_cons] at hkv
      rcases hkv with h1 | h1
      · simp [h1]
      · exact h kv (List.mem_cons_of_mem kv0 h1)
    · simp only [mapInsert, h0, if_false, List.mem_cons] at hkv
      rcases hkv with h1 | h1
      · exact h kv (by rw [h1]; exact List.mem_cons_self kv0 rest)
      · exact ih (fun kv' hkv' => h kv' (List.mem_cons_of_mem kv0 hkv')) kv h1

lemma mem_keys_insert (m : List (Str × FileEvent)) (e : FileEvent) (x : Str)
    (hx : x ∈ (mapInsert m e).map Prod.fst) : x ∈ m.map Prod.fst ∨ x = e.path := by
  induction m with
  | nil =>
    simp only [mapInsert, List.map_cons, List.map_nil, List.mem_singleton] at hx
    right; exact hx
  | cons kv rest ih =>
    by_cases h0 : kv.1 = e.path
    · simp only [mapInsert, h0, if_true, List.map_cons, List.mem_cons] at hx
      rcases hx with h1 | h1
      · right; exact h1
      · left; simp only [List.map_cons, List.mem_cons]; right; exact h1
    · simp only [mapInsert, h0, if_false, List.map_cons, List.mem_cons] at hx
      rcases hx with h1 | h1
      · left; simp only [List.map_cons, List.mem_cons]; left; exact h1
      · rcases ih h1 with h2 | h2
        · left; simp only [List.map_cons, List.mem_cons]; right; exact h2
        · right; exact h2

lemma mapInsert_nodup (m : List (Str × FileEvent)) (e : FileEvent)
    (h : (m.map Prod.fst).Nodup) : ((mapInsert m e).map Prod.fst).Nodup := by
  induction m with
  | nil =>
    simp only [mapInsert, List.map_cons, List.map_nil]
    exact List.nodup_singleton e.path
  | cons kv rest ih =>
    simp only [List.map_cons, List.nodup_cons] at h
    by_cases h0 : kv.1 = e.path
    · simp only [mapInsert, h0, if_true, List.map_cons, List.nodup_cons]
      exact ⟨by rw [← h0]; exact h.1, h.2⟩
    · simp only [mapInsert, h0, if_false, List.map_cons, List.nodup_cons]
      refine ⟨fun hmem => ?_, ih h.2⟩
      rcases mem_keys_insert rest e kv.1 hmem with h1 | h1
      · exact h.1 h1
      · exact h0 h1

lemma batchInsertAll_consist (events : List FileEvent) :
    ∀ m, (∀ kv ∈ m, kv.2.path = kv.1) →
      ∀ kv ∈ batchInsertAll m events, kv.2.path = kv.1 := by
  induction events with
  | nil => intro m h; exact h
  | cons e es ih => intro m h; exact ih (mapInsert m e) (mapInsert_consist m e h)

lemma batchInsertAll_nodup (events : List FileEvent) :
    ∀ m, (m.map Prod.fst).Nodup → ((batchInsertAll m events).map Prod.fst).Nodup := by
  induction events with
  | nil => intro m h; exact h
  | cons e es ih => intro m h; exact ih (mapInsert m e) (mapInsert_nodup m e h)

lemma lookup_filter_map (m : List (Str × FileEvent)) (p : Str) (e : FileEvent)
    (hcons : ∀ kv ∈ m, kv.2.path = kv.1) (hnd : (m.map Prod.fst).Nodup)
    (hl : mapLookup m p = some e) :
    (m.map Prod.snd).filter (fun ev => ev.path = p) = [e] := by
  induction m with
  | nil => simp [mapLookup] at hl
  | cons kv rest ih =>
    simp only [List.map_cons, List.nodup_cons] at hnd
    by_cases h0 : kv.1 = p
    · simp only [mapLookup, h0, if_true, Option.some.injEq] at hl
      have hpath : kv.2.path = p := by
        rw [hcons kv (List.mem_cons_self kv rest), h0]
      rw [List.map_cons, List.filter_cons, if_pos (by simp [hpath]), hl]
      have hnil : (rest.map Prod.snd).filter (fun ev => ev.path = p) = [] := by
        rw [List.filter_eq_nil_iff]
        intro x hx
        rcases List.mem_map.mp hx with ⟨kv', hkv', hkv2⟩
        have hx2 : x.path = kv'.1 := by
          rw [← hkv2]; exact hcons kv' (List.mem_cons_of_mem kv hkv')
        simp only [hx2, decide_eq_true_eq]
        intro hcon
        apply hnd.1
        rw [← h0, ← hcon] at *
        exact List.mem_map.mpr ⟨kv', hkv', hcon ▸ rfl⟩
      rw [hnil]
    · simp only [mapLookup, h0, if_false] at hl
      have hpath : ¬ kv.2.path = p := by
        rw [hcons kv (List.mem_cons_self kv rest)]; exact h0
      rw [List.map_cons, List.filter_cons, if_neg (by simp [hpath])]
      exact ih (fun kv' hkv' => hcons kv' (List.mem_cons_of_mem kv hkv')) hnd.2 hl

/-- Claim C4 (confirmed): if within one window the batcher receives a
sequence of events of which those for path `p` are nonempty with last
element `e`, then — provided the output channel has room for the batched
map — the tick flush emits exactly one event for `p`, namely `e` (the
last observed, by arrival order), and the map is reset to empty after
the flush. -/
theorem claim_C4 (events : List FileEvent) (p : Str) (e : FileEvent) (cap : Nat)
    (hlast : (events.filter (fun ev => ev.path = p)).getLast? = some e)
    (hcap : (batchInsertAll [] events).length ≤ cap) :
    (batchTick (batchInsertAll [] events) [] cap).2.filter (fun ev => ev.path = p) = [e] ∧
    (batchTick (batchInsertAll [] events) [] cap).1 = [] := by
  constructor
  · have hm : mapLookup (batchInsertAll [] events) p = some e := by
      rw [mapLookup_fold events [] p, hlast]
    have hflush : flushEvents (batchInsertAll [] events) [] cap =
        (batchInsertAll [] events).map Prod.snd := by
      have := flush_all (batchInsertAll [] events) [] cap (by simpa using hcap)
      simpa using this
    show (flushEvents (batchInsertAll [] events) [] cap).filter (fun ev => ev.path = p) = [e]
    rw [hflush]
    exact lookup_filter_map (batchInsertAll [] events) p e
      (batchInsertAll_consist events [] (by simp)) (batchInsertAll_nodup events [] (by simp)) hm
  · rfl

/-- Witness for claim C4: three events in one window, two of them for
`/a`; the flush emits only the second `/a` event, and the map is
cleared. -/
theorem claim_C4_witness :
    (batchTick (batchInsertAll []
        [⟨str "/a", str "modify", false, 1⟩, ⟨str "/b", str "create", false, 2⟩,
         ⟨str "/a", str "modify", false, 3⟩]) [] 100).2.filter
      (fun ev => ev.path = str "/a") = [⟨str "/a", str "modify", false, 3⟩] ∧
    (batchTick (batchInsertAll []
        [⟨str "/a", str "modify", false, 1⟩, ⟨str "/b", str "create", false, 2⟩,
         ⟨str "/a", str "modify", false, 3⟩]) [] 100).1 = [] :=
  claim_C4
    [⟨str "/a", str "modify", false, 1⟩, ⟨str "/b", str "create", false, 2⟩,
     ⟨str "/a", str "modify", false, 3⟩]
    (str "/a") ⟨str "/a", str "modify", false, 3⟩ 100 (by decide) (by decide)

/-! ### Claim C1 -/

lemma foldl_tasks (f : (Str × LocalFileInfo) → Option syncTask) :
    ∀ (lf : List (Str × LocalFileInfo)) (acc : List syncTask),
      lf.foldl (fun acc x => match f x with | some t => acc ++ [t] | none => acc) acc =
        acc ++ lf.filterMap f := by
  intro lf
  induction lf with
  | nil => intro acc; simp
  | cons x xs ih =>
    intro acc
    simp only [List.foldl_cons, List.filterMap_cons]
    cases hx : f x with
    | none => rw [ih acc]
    | some t => rw [ih (acc ++ [t])]; simp

lemma tasks_eq_filterMap (dir : SyncDirectory) (localFiles : List (Str × LocalFileInfo))
    (remoteFiles : List RFileInfo) :
    syncDirectoryTasks dir localFiles remoteFiles =
      localFiles.filterMap (fun x => syncFileDecision dir remoteFiles x.1 x.2) := by
  unfold syncDirectoryTasks
  rw [foldl_tasks (fun x => syncFileDecision dir remoteFiles x.1 x.2) localFiles []]
  simp

lemma decision_localPath (dir : SyncDirectory) (remoteFiles : List RFileInfo)
    (lp : Str) (li : LocalFileInfo) (t : syncTask)
    (h : syncFileDecision dir remoteFiles lp li = some t) : t.localPath = lp := by
  unfold syncFileDecision at h
  split at h
  · exact Option.noConfusion h
  · split at h
    · injection h with h2
      rw [← h2]
    · split at h
      · injection h with h2
        rw [← h2]
      · exact Option.noConfusion h

lemma nodup_key_unique {α β : Type} (l : List (α × β)) (hnd : (l.map Prod.fst).Nodup)
    (a : α) (b c : β) (hb : (a, b) ∈ l) (hc : (a, c) ∈ l) : b = c := by
  induction l with
  | nil => simp at hb
  | cons kv rest ih =>
    simp only [List.map_cons, List.nodup_cons] at hnd
    rcases List.mem_cons.mp hb with h1 | h1 <;> rcases List.mem_cons.mp hc with h2 | h2
    · rw [← h1] at h2
      injection h2 with h3 h4
      exact h4.symm
    · exfalso
      apply hnd.1
      rw [← h1]
      exact List.mem_map.mpr ⟨(a, c), h2, rfl⟩
    · exfalso
      apply hnd.1
      rw [← h2]
      exact List.mem_map.mpr ⟨(a, b), h1, rfl⟩
    · exact ih hnd.2 h1 h2

/-- Claim C1 (confirmed): in a reconciliation pass of
`Engine.syncDirectory`, a surviving local file (one that passes
`shouldSyncFile`) is enqueued for upload iff no remote entry exists under
its computed remote key, or the local modification time is strictly
later, or the sizes differ; in particular, equal modification time and
size produce no upload task for it. -/
theorem claim_C1 (dir : SyncDirectory) (localFiles : List (Str × LocalFileInfo))
    (remoteFiles : List RFileInfo) (lp : Str) (linfo : LocalFileInfo)
    (hmem : (lp, linfo) ∈ localFiles)
    (hnodup : (localFiles.map Prod.fst).Nodup)
    (hfilter : shouldSyncFile lp dir.filters = true) :
    (((syncDirectoryTasks dir localFiles remoteFiles).any
        (fun t => decide (t.localPath = lp))) = true ↔
      (match remoteMapLookup remoteFiles
          (goJoin2 dir.remotePath (getRelativePath lp dir.localPath)) with
       | none => True
       | some r => linfo.modTime > r.modTime ∨ ¬ linfo.size = r.size)) ∧
    (∀ r, remoteMapLookup remoteFiles
        (goJoin2 dir.remotePath (getRelativePath lp dir.localPath)) = some r →
      linfo.modTime = r.modTime → linfo.size = r.size →
      ((syncDirectoryTasks dir localFiles remoteFiles).any
        (fun t => decide (t.localPath = lp))) = false) := by
  have hdec : ∀ t, syncFileDecision dir remoteFiles lp linfo = some t ↔
      (match remoteMapLookup remoteFiles
          (goJoin2 dir.remotePath (getRelativePath lp dir.localPath)) with
       | none => t = ⟨lp, goJoin2 dir.remotePath (getRelativePath lp dir.localPath),
           str "upload", linfo⟩
       | some r => needsUpload linfo r = true ∧
           t = ⟨lp, goJoin2 dir.remotePath (getRelativePath lp dir.localPath),
             str "upload", linfo⟩) := by
    intro t
    unfold syncFileDecision
    rw [if_neg (by rw [hfilter]; exact fun hh => hh rfl)]
    cases hlr : remoteMapLookup remoteFiles
        (goJoin2 dir.remotePath (getRelativePath lp dir.localPath)) with
    | none =>
      constructor
      · intro h; injection h with h2; rw [← h2]
      · intro h; rw [h]
    | some r =>
      dsimp only
      by_cases hnu : needsUpload linfo r = true
      · rw [if_pos hnu]
        constructor
        · intro h; injection h with h2; exact ⟨hnu, h2.symm⟩
        · intro h; rw [h.2]
      · rw [if_neg hnu]
        constructor
        · intro h; exact Option.noConfusion h
        · intro h; exact absurd h.1 hnu
  have main : (((syncDirectoryTasks dir localFiles remoteFiles).any
      (fun t => decide (t.localPath = lp))) = true ↔
      (match remoteMapLookup remoteFiles
          (goJoin2 dir.remotePath (getRelativePath lp dir.localPath)) with
       | none => True
       | some r => linfo.modTime > r.modTime ∨ ¬ linfo.size = r.size)) := by
    rw [tasks_eq_filterMap, List.any_eq_true]
    constructor
    · rintro ⟨t, ht, hp⟩
      rcases List.mem_filterMap.mp ht with ⟨x, hx, hfx⟩
      have hlp : t.localPath = lp := of_decide_eq_true hp
      have hx1 : x.1 = lp := by rw [← decision_localPath dir remoteFiles x.1 x.2 t hfx, hlp]
      have hx2 : x.2 = linfo := by
        apply nodup_key_unique localFiles hnodup lp
        · rw [← hx1]; exact hx
        · exact hmem
      rw [hx1, hx2] at hfx
      rw [hdec t] at hfx
      cases hlr : remoteMapLookup remoteFiles
          (goJoin2 dir.remotePath (getRelativePath lp dir.localPath)) with
      | none => trivial
      | some r =>
        rw [hlr] at hfx
        have h2 := hfx.1
        simp only [needsUpload, Bool.or_eq_true, decide_eq_true_eq] at h2
        exact h2
    · intro hrhs
      refine ⟨⟨lp, goJoin2 dir.remotePath (getRelativePath lp dir.localPath),
        str "upload", linfo⟩, ?_, by simp⟩
      apply List.mem_filterMap.mpr
      refine ⟨(lp, linfo), hmem, ?_⟩
      rw [hdec]
      cases hlr : remoteMapLookup remoteFiles
          (goJoin2 dir.remotePath (getRelativePath lp dir.localPath)) with
      | none => rfl
      | some r =>
        rw [hlr] at hrhs
        refine ⟨?_, rfl⟩
        simp only [needsUpload, Bool.or_eq_true, decide_eq_true_eq]
        exact hrhs
  refine ⟨main, ?_⟩
  intro r hlr hmt hsz
  cases hany : (syncDirectoryTasks dir localFiles remoteFiles).any
      (fun t => decide (t.localPath = lp)) with
  | false => rfl
  | true =>
    exfalso
    have := main.mp hany
    rw [hlr] at this
    rcases this with h | h
    · rw [hmt] at h; exact lt_irrefl r.modTime h
    · exact h hsz

/-- Witness for claim C1: one local file with no remote entry gives the
iff at a lookup that is remotely absent; and with a remote entry of the
same key, equal mtime and equal size, no upload task is enqueued. -/
theorem claim_C1_witness :
    (((syncDirectoryTasks ⟨str "/tmp/src", str "backup", .both, [], true, [], true⟩
        [(str "/tmp/src/a.txt", ⟨5, 100, str "-rw-r--r--"⟩)] []).any
      (fun t => decide (t.localPath = str "/tmp/src/a.txt"))) = true ↔ True) ∧
    ((syncDirectoryTasks ⟨str "/tmp/src", str "backup", .both, [], true, [], true⟩
        [(str "/tmp/src/a.txt", ⟨5, 100, str "-rw-r--r--"⟩)]
        [⟨str "backup/a.txt", 5, 100, [], false⟩]).any
      (fun t => decide (t.localPath = str "/tmp/src/a.txt"))) = false :=
  ⟨(claim_C1 ⟨str "/tmp/src", str "backup", .both, [], true, [], true⟩
      [(str "/tmp/src/a.txt", ⟨5, 100, str "-rw-r--r--"⟩)] []
      (str "/tmp/src/a.txt") ⟨5, 100, str "-rw-r--r--"⟩
      (by decide) (by decide) (by decide)).1,
   (claim_C1 ⟨str "/tmp/src", str "backup", .both, [], true, [], true⟩
      [(str "/tmp/src/a.txt", ⟨5, 100, str "-rw-r--r--"⟩)]
      [⟨str "backup/a.txt", 5, 100, [], false⟩]
      (str "/tmp/src/a.txt") ⟨5, 100, str "-rw-r--r--"⟩
      (by decide) (by decide) (by decide)).2
     ⟨str "backup/a.txt", 5, 100, [], false⟩ (by decide) rfl rfl⟩

/-! ### Claim C10 -/

lemma parseRangesF_shape : ∀ (fuel : Nat) (l : Str) (first m m' : Bool) (r r' : Char),
    (parseRangesF fuel r first m l).map Prod.snd =
      (parseRangesF fuel r' first m' l).map Prod.snd := by
  intro fuel
  induction fuel with
  | zero => intro l first m m' r r'; rfl
  | succ n ih =>
    intro l first m m' r r'
    simp only [parseRangesF]
    rcases hc : classStep first l with - | ⟨o, rest⟩
    · rfl
    · rcases o with - | ⟨lo, hi⟩
      · rfl
      · exact ih rest false _ _ r r'

lemma parseRanges_shape (l : Str) (r r' : Char) :
    (parseRanges r true false l).map Prod.snd = (parseRanges r' true false l).map Prod.snd :=
  parseRangesF_shape (l.length + 1) l true false false r r'

lemma mcf_err_iff : ∀ (fuel : Nat) (chunk : Str) (f : Bool) (s : Str) (f' : Bool) (s' : Str),
    (matchChunkF fuel f chunk s = .err) ↔ (matchChunkF fuel f' chunk s' = .err) := by
  intro fuel
  induction fuel with
  | zero => intro chunk f s f' s'; exact Iff.rfl
  | succ n ih =>
    intro chunk f s f' s'
    cases chunk with
    | nil =>
      simp only [matchChunkF]
      constructor <;> intro h <;> (split at h <;> exact MatchRes.noConfusion h)
    | cons c rest =>
      simp only [matchChunkF]
      by_cases hc1 : c = '['
      · rw [if_pos hc1, if_pos hc1]
        have hshape := parseRanges_shape (classChunk rest)
          (classR (f || s.isEmpty) s) (classR (f' || s'.isEmpty) s')
        cases hp1 : parseRanges (classR (f || s.isEmpty) s) true false (classChunk rest) with
        | none =>
          rw [hp1] at hshape
          cases hp2 : parseRanges (classR (f' || s'.isEmpty) s') true false (classChunk rest) with
          | none => exact Iff.rfl
          | some q => rw [hp2] at hshape; exact absurd hshape (by simp)
        | some q =>
          rw [hp1] at hshape
          cases hp2 : parseRanges (classR (f' || s'.isEmpty) s') true false (classChunk rest) with
          | none => rw [hp2] at hshape; exact absurd hshape (by simp)
          | some q2 =>
            rw [hp2] at hshape
            obtain ⟨m1, ch2⟩ := q
            obtain ⟨m2, ch2'⟩ := q2
            have hq : ch2 = ch2' := by simpa using hshape
            subst hq
            exact ih ch2 _ _ _ _
      · rw [if_neg hc1, if_neg hc1]
        by_cases hc2 : c = '?'
        · rw [if_pos hc2, if_pos hc2]
          have key : ∀ (g : Bool) (u : Str),
              ((if g || u.isEmpty then matchChunkF n true rest u
                else matchChunkF n (decide (u.headD ' ' = '/')) rest u.tail) = .err) ↔
                matchChunkF n true rest [] = .err := by
            intro g u
            split
            · exact ih rest true u true []
            · exact ih rest _ _ true []
          exact (key f s).trans (key f' s').symm
        · rw [if_neg hc2, if_neg hc2]
          by_cases hc3 : c = '\\'
          · rw [if_pos hc3, if_pos hc3]
            cases rest with
            | nil => exact Iff.rfl
            | cons d ds =>
              have key : ∀ (g : Bool) (u : Str),
                  ((if g || u.isEmpty then matchChunkF n true ds u
                    else matchChunkF n (decide (¬ d = u.headD ' ')) ds u.tail) = .err) ↔
                    matchChunkF n true ds [] = .err := by
                intro g u
                split
                · exact ih ds true u true []
                · exact ih ds _ _ true []
              exact (key f s).trans (key f' s').symm
          · rw [if_neg hc3, if_neg hc3]
            have key : ∀ (g : Bool) (u : Str),
                ((if g || u.isEmpty then matchChunkF n true rest u
                  else matchChunkF n (decide (¬ c = u.headD ' ')) rest u.tail) = .err) ↔
                  matchChunkF n true rest [] = .err := by
              intro g u
              split
              · exact ih rest true u true []
              · exact ih rest _ _ true []
            exact (key f s).trans (key f' s').symm

lemma mcc_err_iff (chunk : Str) (f : Bool) (s : Str) (f' : Bool) (s' : Str) :
    (matchChunkCore f chunk s = .err) ↔ (matchChunkCore f' chunk s' = .err) :=
  mcf_err_iff (chunk.length + 1) chunk f s f' s'

lemma starLoop_finds_ok (chunk rest : Str) : ∀ (name t : Str),
    starLoop chunk rest name = .ok t → ∃ s, matchChunkCore false chunk s = .ok t := by
  intro name
  induction name with
  | nil => intro t h; simp [starLoop] at h
  | cons c cs ih =>
    intro t h
    simp only [starLoop] at h
    by_cases hc : c = '/'
    · rw [if_pos hc] at h; exact MatchRes.noConfusion h
    · rw [if_neg hc] at h
      cases hmc : matchChunkCore false chunk cs with
      | ok t2 =>
        rw [hmc] at h
        dsimp only at h
        by_cases hcond : rest = [] ∧ ¬ t2 = []
        · rw [if_pos hcond] at h; exact ih t h
        · rw [if_neg hcond] at h
          injection h with h2
          exact ⟨cs, by rw [hmc, h2]⟩
      | err => rw [hmc] at h; exact MatchRes.noConfusion h
      | failed => rw [hmc] at h; dsimp only at h; exact ih t h

lemma dropWhile_star_head (l : Str) : ¬ ((l.dropWhile (· = '*')).head? = some '*') := by
  induction l with
  | nil => simp
  | cons c cs ih =>
    by_cases h : c = '*'
    · simpa [List.dropWhile_cons, h] using ih
    · simp [List.dropWhile_cons, h]

lemma scanChunkCore_nil_chunk : ∀ (l : Str) (ir : Bool), (scanChunkCore ir l).1 = [] →
    l = [] ∨ (l.head? = some '*' ∧ ir = false) := by
  intro l ir h
  cases l with
  | nil => left; rfl
  | cons c cs =>
    rw [scanChunkCore.eq_def] at h
    dsimp only at h
    by_cases h1 : c = '*' ∧ ir = false
    · right; rw [h1.1]; exact ⟨rfl, h1.2⟩
    · rw [if_neg h1] at h
      by_cases h2 : c = '\\'
      · rw [if_pos h2] at h
        cases cs with
        | nil => dsimp only at h; simp at h
        | cons d ds => dsimp only at h; simp at h
      · rw [if_neg h2] at h
        dsimp only at h
        simp at h

lemma scanChunk_nil_rest (p : Str) (st : Bool) (r : Str) (h : scanChunk p = (st, [], r)) :
    r = [] := by
  simp only [scanChunk] at h
  have hch : (scanChunkCore false (p.dropWhile (· = '*'))).1 = [] := by
    have h2 := congrArg (fun x => x.2.1) h
    simpa using h2
  have hr : (scanChunkCore false (p.dropWhile (· = '*'))).2 = r := by
    have h2 := congrArg (fun x => x.2.2) h
    simpa using h2
  rcases scanChunkCore_nil_chunk _ false hch with h1 | h1
  · rw [h1] at hr
    simpa [scanChunkCore] using hr.symm
  · exact absurd h1.1 (dropWhile_star_head p)

lemma patternValidF_nil (fuel : Nat) : patternValidF fuel [] = true := by
  cases fuel <;> rfl

lemma pv_tail_false (chunk rest : Str) (n : Nat)
    (hcv : ¬ matchChunkCore false chunk [] = .err)
    (hbad : ((match matchChunkCore false chunk [] with
              | .err => false
              | _ => true) && patternValidF n rest) = false) :
    patternValidF n rest = false := by
  rcases h : matchChunkCore false chunk [] with - | - | t
  · exact absurd h hcv
  · rw [h] at hbad; simpa using hbad
  · rw [h] at hbad; simpa using hbad

lemma gml_not_matched : ∀ (fuel : Nat) (p name : Str),
    patternValidF fuel p = false → (goMatchLoopF fuel p name).1 = false := by
  intro fuel
  induction fuel with
  | zero => intro p name _; rfl
  | succ n ih =>
    intro p name hbad
    cases p with
    | nil => rw [patternValidF_nil] at hbad; exact Bool.noConfusion hbad
    | cons c ps =>
      rcases hsc : scanChunk (c :: ps) with ⟨star, chunk, rest⟩
      simp only [patternValidF, hsc] at hbad
      simp only [goMatchLoopF, hsc]
      by_cases hsc0 : star = true ∧ chunk = []
      · exfalso
        obtain ⟨hstar, hchunk⟩ := hsc0
        subst hchunk
        have hrest : rest = [] := scanChunk_nil_rest (c :: ps) star rest (by rw [hsc, hstar])
        subst hrest
        rw [patternValidF_nil] at hbad
        simp [matchChunkCore, matchChunkF] at hbad
      · rw [if_neg hsc0]
        cases hmc : matchChunkCore false chunk name with
        | err => rfl
        | ok t =>
          dsimp only
          have hcv : ¬ matchChunkCore false chunk [] = .err := by
            intro herr
            have h2 := (mcc_err_iff chunk false name false []).mpr herr
            rw [hmc] at h2
            exact MatchRes.noConfusion h2
          have hpv : patternValidF n rest = false := pv_tail_false chunk rest n hcv hbad
          by_cases ht : t = [] ∨ ¬ rest = []
          · rw [if_pos ht]; exact ih rest t hpv
          · rw [if_neg ht]
            by_cases hst : star = true
            · rw [if_pos hst]
              cases hsl : starLoop chunk rest name with
              | ok t2 => exact ih rest t2 hpv
              | err => rfl
              | failed => rfl
            · rw [if_neg hst]
        | failed =>
          dsimp only
          by_cases hst : star = true
          · rw [if_pos hst]
            cases hsl : starLoop chunk rest name with
            | ok t2 =>
              obtain ⟨s0, hs0⟩ := starLoop_finds_ok chunk rest name t2 hsl
              have hcv : ¬ matchChunkCore false chunk [] = .err := by
                intro herr
                have h2 := (mcc_err_iff chunk false s0 false []).mpr herr
                rw [hs0] at h2
                exact MatchRes.noConfusion h2
              exact ih rest t2 (pv_tail_false chunk rest n hcv hbad)
            | err => rfl
            | failed => rfl
          · rw [if_neg hst]

/-- Claim C10 (confirmed): a syntactically malformed glob pattern never
matches any name — `filepath.Match` reports `ErrBadPattern` with
`matched = false`, and both `Engine.shouldSyncFile` and
`FSWatcher.shouldSkipFile` discard the error — so inserting a malformed
pattern into a filter list changes neither check: a bad pattern filters
nothing, and a file is excluded only by the hidden-name rule, the
watcher's temp-suffix rules, or a well-formed pattern matching its
basename. -/
theorem claim_C10 (p : Str) (hbad : patternValid p = false) (l1 l2 : List Str) (path : Str) :
    shouldSyncFile path (l1 ++ p :: l2) = shouldSyncFile path (l1 ++ l2) ∧
    shouldSkipFile (l1 ++ p :: l2) path = shouldSkipFile (l1 ++ l2) path ∧
    (∀ name, (goMatch p name).1 = false) := by
  have hnm : ∀ name, (goMatch p name).1 = false := fun name =>
    gml_not_matched (p.length + 1) p name hbad
  have hany : ∀ (filename : Str),
      (l1 ++ p :: l2).any (fun filter => (goMatch filter filename).1) =
        (l1 ++ l2).any (fun filter => (goMatch filter filename).1) := by
    intro filename
    simp [List.any_append, List.any_cons, hnm filename]
  refine ⟨?_, ?_, hnm⟩
  · simp only [shouldSyncFile]
    rw [hany (goBase path)]
  · simp only [shouldSkipFile]
    rw [hany (goBase path)]

/-- Witness for claim C10 at the malformed pattern `a[` (unterminated
character class): inserting it between two well-formed filters changes
neither filter check, and it matches nothing. -/
theorem claim_C10_witness :
    shouldSyncFile (str "/tmp/x.log") ([str "*.tmp"] ++ str "a[" :: [str "*.log"]) =
      shouldSyncFile (str "/tmp/x.log") ([str "*.tmp"] ++ [str "*.log"]) ∧
    shouldSkipFile ([str "*.tmp"] ++ str "a[" :: [str "*.log"]) (str "/tmp/x.log") =
      shouldSkipFile ([str "*.tmp"] ++ [str "*.log"]) (str "/tmp/x.log") ∧
    (goMatch (str "a[") (str "a.txt")).1 = false :=
  ⟨(claim_C10 (str "a[") (by decide) [str "*.tmp"] [str "*.log"] (str "/tmp/x.log")).1,
   (claim_C10 (str "a[") (by decide) [str "*.tmp"] [str "*.log"] (str "/tmp/x.log")).2.1,
   (claim_C10 (str "a[") (by decide) [str "*.tmp"] [str "*.log"] (str "/tmp/x.log")).2.2
     (str "a.txt")⟩
